import Mathlib

/-!
# A verification development for `esntorch/core/esn.py`

This file gives a shallow embedding of the orchestration layer of the
Echo State Network implementation (`EchoStateNetwork` in
`esntorch/core/esn.py`) and proves properties of it.

Modelling conventions:
* tensors are nested lists of rationals (`ℚ` stands in for the float
  entries; the claims under study are about data movement, slicing and
  control flow, not float rounding);
* the external collaborators (the reservoir layer, the merging-strategy
  reduction, the readout algorithm and the loss/optimizer pair) are
  abstract function fields of the `ESN` structure, mirroring the
  collaborator interfaces the source calls into;
* Python runtime failures (`KeyError`, `AttributeError`,
  `UnboundLocalError`, `RuntimeError`) are modelled with `Except PyErr`.
-/

namespace EsnCore

/-- Rows of rational entries, a 2-D tensor. -/
abbrev Mat : Type := List (List ℚ)

/-- Batch of (time-step × feature) matrices, a 3-D tensor. -/
abbrev Tensor3 : Type := List (List (List ℚ))

/-- Token-index matrix of a batch (one row of token ids per sequence). -/
abbrev Texts : Type := List (List ℕ)

/-- Python runtime errors that the embedded code can raise. -/
inductive PyErr : Type
  | keyError (key : String)
  | attributeError (attr : String)
  | unboundLocal (var : String)
  | typeError (msg : String)
  | indexError (msg : String)
  | runtimeError (msg : String)
  deriving DecidableEq, Repr

/-- A batch in one of the two wire shapes handled by the source:
`keyed` models the HuggingFace dict batches (fields looked up by name,
either one possibly absent), `attributed` models the TorchText record
batches (`batch.text`, `batch.label`, no additional-features field). -/
inductive Batch : Type
  | keyed (text : Texts) (labels : Option (List ℤ)) (additionalFts : Option Mat)
  | attributed (text : Texts) (label : Option (List ℤ))
  deriving DecidableEq, Repr

/-- The declared type of the readout (learning) algorithm instance.
The four named constructors are the classes tested by `isinstance` in
`EchoStateNetwork.fit` (esn.py lines 335-338); `other` covers every
remaining class a caller could pass. -/
inductive AlgoKind : Type
  | ridgeRegression
  | ridgeRegressionSkl
  | logisticRegressionSkl
  | linearSVC
  | other (className : String)
  deriving DecidableEq, Repr

/-- Raw output of the readout algorithm: a 1-D tensor of class ids or a
2-D tensor of per-row scores (the source branches on `dim()`). -/
inductive Tensor12 : Type
  | one (v : List ℚ)
  | two (m : Mat)
  deriving DecidableEq, Repr

/-- The Echo State Network model state together with its external
collaborators, mirroring the attributes used by `EchoStateNetwork`:
`embCallable` is `callable(self.layer.embedding)` (fixed per model),
`strategyTag` is `self.merging_strategy.merging_strategy`,
`merge` is the external `MergingStrategy.__call__` reduction
(`states, lengths, texts, additional_fts=None`),
`forwardL`/`reverseForwardL` are `self.layer.forward` and
`self.layer.reverse_forward`, `algoForward` is `self.learning_algo(...)`
and `lossOf` abstracts the criterion/optimizer pair: the loss value
observed at a given global iteration on given states and labels. -/
structure ESN : Type where
  embCallable : Bool
  bidirectional : Bool
  strategyTag : Option String
  merge : Tensor3 → List ℕ → Texts → Option Mat → Mat
  forwardL : Texts → Tensor3 × List ℕ
  reverseForwardL : Texts → Tensor3 × List ℕ
  algoKind : AlgoKind
  algoForward : Mat → Tensor12
  lossOf : ℕ → Mat → List ℤ → ℚ

/-! ## Batch normalization (esn.py lines 192-203, 263-272, 421-430)

The source extracts `batch_text`, `batch_label` and (in the keyed branch
only) `additional_fts` from the batch.  The third component of the result
models the local variable slot of `additional_fts`: `some v` means the
variable was bound to `v`, `none` means the branch left it unbound (the
TorchText branch never assigns it). -/

/-- Extraction of text, labels and the `additional_fts` local from a raw
batch, following the `callable(self.layer.embedding)` branch of the
source verbatim.  Keyed shape: `batch["labels"]` raises `KeyError` when
the key is absent, `additional_fts` is bound to the value or to `None`
after the explicit key test.  Attributed shape: `batch.label` raises
`AttributeError` when absent, and `additional_fts` is never bound. -/
def normalizeBatch (embCallable : Bool) : Batch →
    Except PyErr (Texts × List ℤ × Option (Option Mat))
  | Batch.keyed text labels additionalFts =>
    if embCallable then
      match labels with
      | some ls => Except.ok (text, ls, some additionalFts)
      | none => Except.error (PyErr.keyError "labels")
    else
      Except.error (PyErr.attributeError "text")
  | Batch.attributed text label =>
    if embCallable then
      Except.error (PyErr.typeError "batch indices must be strings")
    else
      match label with
      | some ls => Except.ok (text, ls, none)
      | none => Except.error (PyErr.attributeError "label")

/-- Reading the `additional_fts` local variable: using it while unbound
raises `UnboundLocalError` (as at esn.py lines 220-221, 288-289,
441-442 in the TorchText case). -/
def readAdditionalFts : Option (Option Mat) → Except PyErr (Option Mat)
  | some v => Except.ok v
  | none => Except.error (PyErr.unboundLocal "additional_fts")

/-! ## Directional pooling (esn.py lines 125-170) -/

/-- The `restored_states` loop of esn.py lines 155-157: for each sequence
`i`, the first `lengths[i]` rows are reversed in place and the rows at
indices `≥ lengths[i]` are left unchanged. -/
def restoreStates (lengths : List ℕ) (revStates : Tensor3) : Tensor3 :=
  List.zipWith (fun l rows => (rows.take l).reverse ++ rows.drop l) lengths revStates

/-- Semantics of `torch.cat(..., dim=2)` on two 3-D tensors of equal leading shapes:
feature-axis concatenation. -/
def catDim2 (a b : Tensor3) : Tensor3 :=
  List.zipWith (fun x y => List.zipWith (fun r s => r ++ s) x y) a b

/-- Semantics of `torch.cat(..., dim=1)` on two 2-D tensors with equal row counts:
feature-axis concatenation. -/
def catDim1 (a b : Mat) : Mat :=
  List.zipWith (fun r s => r ++ s) a b

/-- The method `EchoStateNetwork._apply_pooling_strategy` (esn.py lines 151-170).
When not bidirectional the reduction is called once on the forward
states with the extra features.  When bidirectional and the strategy tag
is `None`, the reversed states are restored to forward time order,
concatenated to the forward states along the feature axis, and the
reduction is called on the concatenation *without* the extra-features
argument (line 160 passes only three arguments, so `additional_fts`
takes its default `None`).  When bidirectional with a non-`None` tag,
the reduction is called on the forward states with the extra features
and on the reversed states without them, and the two results are
concatenated along the feature axis. -/
def applyPoolingStrategy (e : ESN) (states : Tensor3) (lengths : List ℕ)
    (texts : Texts) (reversedStates : Option Tensor3) (additionalFts : Option Mat) :
    Mat :=
  if e.bidirectional then
    match e.strategyTag with
    | none =>
      let restoredStates := restoreStates lengths (reversedStates.getD [])
      let concatenatedStates := catDim2 states restoredStates
      e.merge concatenatedStates lengths texts none
    | some _ =>
      let normalMergedStates := e.merge states lengths texts additionalFts
      let reversedMergedStates := e.merge (reversedStates.getD []) lengths texts none
      catDim1 normalMergedStates reversedMergedStates
  else
    e.merge states lengths texts additionalFts

/-! ## Label duplication (external `esntorch.utils.matrix.duplicate_labels`) -/

/-- Modelled from the spec: `duplicate_labels` lives in the utility
module `esntorch/utils/matrix.py`, which is not part of the analysed
sources; per spec §3 invariant 1, it "must produce exactly `lengths[i]`
copies of sequence i's label, in the same row order as its token
states". -/
def duplicate_labels (labels : List ℤ) (lengths : List ℕ) : List ℤ :=
  (List.zipWith (fun lab l => List.replicate l lab) labels lengths).flatten

/-! ## Per-batch processing shared by both trainers and by prediction
(esn.py lines 192-221, 263-289, 421-442) -/

/-- The per-batch pipeline common to `_fit_direct`, `_fit_GD` and
`predict`: normalize the batch, read the `additional_fts` local, run the
forward pass, run the reverse pass when bidirectional (keeping only the
states, discarding the lengths of the reverse pass), and pool.  Returns
the pooled states together with the forward lengths and the raw labels. -/
def processBatch (e : ESN) (b : Batch) :
    Except PyErr (Mat × List ℕ × List ℤ) := do
  let (text, labelsRaw, aftsSlot) ← normalizeBatch e.embCallable b
  let additionalFts ← readAdditionalFts aftsSlot
  let (states, lengths) := e.forwardL text
  let reversedStates := if e.bidirectional then some (e.reverseForwardL text).1 else none
  let finalStates := applyPoolingStrategy e states lengths text reversedStates additionalFts
  Except.ok (finalStates, lengths, labelsRaw)

/-- Per-batch design-matrix/target pair of the two training paths: the
pooled states together with the labels, duplicated across token rows
when the merging strategy is `None` (esn.py lines 216-217, 284-285). -/
def trainPair (e : ESN) (b : Batch) : Except PyErr (Mat × List ℤ) :=
  (processBatch e b).map fun r =>
    (r.1, if e.strategyTag.isNone then duplicate_labels r.2.2 r.2.1 else r.2.2)

/-- Variant of `trainPair` with a default for the error case (used only to state
theorems about batches that are known to process successfully). -/
def trainPairD (e : ESN) (b : Batch) : Mat × List ℤ :=
  match trainPair e b with
  | Except.ok p => p
  | Except.error _ => ([], [])

/-! ## Closed-form training (`_fit_direct`, esn.py lines 172-231) -/

/-- Loop body of `_fit_direct`: process one batch and append its pooled
states and labels to the accumulators `states_l` and `labels_l`. -/
def fitDirectStep (e : ESN) (acc : List Mat × List (List ℤ)) (b : Batch) :
    Except PyErr (List Mat × List (List ℤ)) :=
  (trainPair e b).map fun p => (acc.1 ++ [p.1], acc.2 ++ [p.2])

/-- The method `EchoStateNetwork._fit_direct`: iterate over all batches
accumulating pooled states and labels, then concatenate each list along
the row axis (`torch.cat(..., dim=0)`).  The returned pair models the
arguments of the single `self.learning_algo.fit(all_states, all_labels)`
call issued after the loop (line 227); the readout fit itself is
external. -/
def fitDirect (e : ESN) (batches : List Batch) : Except PyErr (Mat × List ℤ) := do
  let acc ← batches.foldlM (fitDirectStep e) ([], [])
  Except.ok (acc.1.flatten, acc.2.flatten)

/-! ## Gradient-descent training (`_fit_GD`, esn.py lines 233-310) -/

/-- Loop body of `_fit_GD` for one batch: process the batch, run the
forward/loss/backward/step block (abstracted into `e.lossOf` evaluated
at the incremented global iteration counter), and append the loss to the
history exactly when the counter is a multiple of `iter_steps`
(esn.py lines 302-306). -/
def fitGDStep (e : ESN) (iterSteps : ℕ) (st : ℕ × List ℚ) (b : Batch) :
    Except PyErr (ℕ × List ℚ) :=
  (trainPair e b).map fun p =>
    let nIter := st.1 + 1
    let loss := e.lossOf nIter p.1 p.2
    (nIter, if nIter % iterSteps = 0 then st.2 ++ [loss] else st.2)

/-- The method `EchoStateNetwork._fit_GD`: loop over epochs, inside each epoch loop
over all batches, threading the global iteration counter and the loss
history; return the loss history. -/
def fitGD (e : ESN) (batches : List Batch) (epochs iterSteps : ℕ) :
    Except PyErr (List ℚ) := do
  let st ← (List.range epochs).foldlM
    (fun st _ => batches.foldlM (fitGDStep e iterSteps) st) ((0 : ℕ), ([] : List ℚ))
  Except.ok st.2

/-! ## Training dispatch (`fit`, esn.py lines 312-345) -/

/-- The `isinstance` chain of `EchoStateNetwork.fit` (lines 335-338):
recognizes exactly the four closed-form readout classes. -/
def isClosedForm : AlgoKind → Bool
  | AlgoKind.ridgeRegression => true
  | AlgoKind.ridgeRegressionSkl => true
  | AlgoKind.logisticRegressionSkl => true
  | AlgoKind.linearSVC => true
  | AlgoKind.other _ => false

/-- The method `EchoStateNetwork.fit`: route to `_fit_direct` (which returns
`None`, modelled by `none`) when the readout kind passes the
`isinstance` chain, and to `_fit_GD` (whose loss history is returned,
modelled by `some`) otherwise. -/
def fitE (e : ESN) (batches : List Batch) (epochs iterSteps : ℕ) :
    Except PyErr (Option (List ℚ)) :=
  if isClosedForm e.algoKind then
    (fitDirect e batches).map fun _ => none
  else
    (fitGD e batches epochs iterSteps).map fun l => some l

/-! ## Prediction (`_compute_predictions` and `predict`,
esn.py lines 347-463) -/

/-- First index of the maximum entry of a 1-D tensor, with ties resolved
to the lowest index: the documented semantics of `torch.argmax` used at
esn.py lines 386 and 390 ("the index of the first maximal value").
Returns `0` on the empty list (unreachable in the source). -/
def argmaxIdx : List ℚ → ℕ
  | [] => 0
  | [_] => 0
  | x :: y :: ys =>
    if x < (y :: ys).getD (argmaxIdx (y :: ys)) 0 then argmaxIdx (y :: ys) + 1 else 0

/-- Elementwise sum of two rows (`+` on equal-width 1-D tensors). -/
def addRow (a b : List ℚ) : List ℚ := List.zipWith (fun x y => x + y) a b

/-- Column-wise sum of the rows of a 2-D tensor. -/
def sumRows : Mat → List ℚ
  | [] => []
  | r :: rs => rs.foldl addRow r

/-- Semantics of `torch.mean(m, dim=0)`: column-wise average of the rows. -/
def meanRows (m : Mat) : List ℚ :=
  (sumRows m).map fun x => x / (m.length : ℚ)

/-- Python slice `raw[a:b]` on the row axis. -/
def sliceRows (raw : Mat) (a b : ℕ) : Mat := (raw.drop a).take (b - a)

/-- The offsets list `tmp` of esn.py lines 383-384:
`[0] + [sum(lengths[:i]) for i in range(1, len(lengths) + 1)]`, i.e.
`[0, len₀, len₀+len₁, …, sum lengths]`. -/
def cumOffsets (lengths : List ℕ) : List ℕ :=
  (List.range (lengths.length + 1)).map fun i => (lengths.take i).sum

/-- The merging-strategy-`None` branch of `_compute_predictions`
(esn.py lines 383-386): for each sequence, slice its span of raw output
rows using consecutive cumulative offsets, average the span row-wise,
and take the arg-max of the averaged score vector. -/
def computePredictionsNone (raw : Mat) (lengths : List ℕ) : List ℕ :=
  (List.range ((cumOffsets lengths).length - 1)).map fun i =>
    argmaxIdx (meanRows (sliceRows raw
      ((cumOffsets lengths).getD i 0) ((cumOffsets lengths).getD (i + 1) 0)))

/-- Semantics of `.float().type(torch.int64)` on a scalar: truncation toward zero. -/
def ratTrunc (q : ℚ) : ℤ := Int.tdiv q.num (q.den : ℤ)

/-- The merging-strategy-not-`None` branch of `_compute_predictions`
(esn.py lines 388-393): the branch is on the *rank* of the raw outputs
(`raw_outputs.dim() != 1`): any 2-D output is arg-maxed per row, a 1-D
output is cast directly to integer class ids. -/
def computePredictionsPooled : Tensor12 → List ℤ
  | Tensor12.two m => m.map fun r => (argmaxIdx r : ℤ)
  | Tensor12.one v => v.map ratTrunc

/-- The method `EchoStateNetwork._compute_predictions` (esn.py lines 347-395):
pass the (merged) states through the readout algorithm and convert the
raw outputs to integer predictions according to the merging strategy.
In the strategy-`None` branch a 1-D raw output would make
`argmax(dim=1)` fail (modelled by `indexError`). -/
def computePredictionsE (e : ESN) (finalStates : Mat) (lengths : List ℕ) :
    Except PyErr (List ℤ) :=
  let rawOutputs := e.algoForward finalStates
  match e.strategyTag with
  | none =>
    match rawOutputs with
    | Tensor12.two m => Except.ok ((computePredictionsNone m lengths).map Int.ofNat)
    | Tensor12.one _ => Except.error (PyErr.indexError "argmax dim 1 on 1-D tensor")
  | some _ => Except.ok (computePredictionsPooled rawOutputs)

/-- Semantics of `(predictions == labels).sum()` for equally shaped 1-D tensors:
the number of positions where prediction and label agree. -/
def countMatches (preds labels : List ℤ) : ℕ :=
  (List.zipWith (fun p l => decide (p = l)) preds labels).count true

/-- Loop body of `predict` (esn.py lines 419-455) for one batch:
process the batch, compute its predictions, append them, and update the
running correct/total counters.  In this embedding a successfully
normalized batch always carries well-formed labels, so the
`try` block always succeeds and sets `testing_mode` (the label lookup
itself happens earlier, at normalization, outside the `try`). -/
def predictStep (e : ESN) (st : List (List ℤ) × ℕ × ℕ × Bool) (b : Batch) :
    Except PyErr (List (List ℤ) × ℕ × ℕ × Bool) := do
  let (finalStates, lengths, labels) ← processBatch e b
  let preds ← computePredictionsE e finalStates lengths
  Except.ok (st.1 ++ [preds], st.2.1 + countMatches preds labels,
    st.2.2.1 + labels.length, true)

/-- The method `EchoStateNetwork.predict` (esn.py lines 397-463): fold over all
batches accumulating per-batch predictions and the accuracy counters;
report `accuracy = 100 * correct / total` when `testing_mode` was set
and `None` (modelled `none`) otherwise; concatenate the per-batch
predictions (`torch.cat` raises on an empty list). -/
def predictE (e : ESN) (batches : List Batch) :
    Except PyErr (List ℤ × Option ℚ) := do
  let st ← batches.foldlM (predictStep e)
    (([] : List (List ℤ)), (0 : ℕ), (0 : ℕ), false)
  let accuracy : Option ℚ :=
    if st.2.2.2 then some (100 * (st.2.1 : ℚ) / (st.2.2.1 : ℚ)) else none
  if st.1.isEmpty then
    Except.error (PyErr.runtimeError "torch.cat on an empty list of tensors")
  else
    Except.ok (st.1.flatten, accuracy)

/-! ## Spec-side reference definitions and concrete instances

The `...Spec` definitions below follow the words of the specification (not
the source); they exist only to be compared with the definitions
translated from the source. -/

/-- Outcome of the training dispatch as the spec describes it. -/
inductive DispatchOutcome : Type
  | closedFormPath
  | iterativePath
  | failUnsupported
  deriving DecidableEq, Repr

/-- Modelled from the spec (§4.3 and §7): a dispatcher with a recognized
closed-form tag set and a recognized iterative tag set that fails with
`UnsupportedAlgorithm` when neither recognizes the readout kind. -/
def dispatchSpec (closedRecognized iterRecognized : AlgoKind → Bool)
    (k : AlgoKind) : DispatchOutcome :=
  if closedRecognized k then DispatchOutcome.closedFormPath
  else if iterRecognized k then DispatchOutcome.iterativePath
  else DispatchOutcome.failUnsupported

/-- The dispatch actually performed by `EchoStateNetwork.fit`
(esn.py lines 334-345): closed-form for the four recognized classes,
iterative for everything else, with no failure outcome. -/
def dispatchSource (k : AlgoKind) : DispatchOutcome :=
  if isClosedForm k then DispatchOutcome.closedFormPath
  else DispatchOutcome.iterativePath

/-- Follows the words of claim C2 (not the source): the bidirectional
no-pooling combination calling the reduction *with* the extra features
over the concatenation. -/
def applyPoolingSpecBidirNone (e : ESN) (states : Tensor3) (lengths : List ℕ)
    (texts : Texts) (revStates : Tensor3) (additionalFts : Option Mat) : Mat :=
  e.merge (catDim2 states (restoreStates lengths revStates)) lengths texts additionalFts

/-- Follows the words of claim C6 (not the source): branch on the
*column count* of the raw outputs — more than one column means per-row
arg-max, a single column means direct cast of class ids. -/
def computePredictionsPooledSpec : Tensor12 → List ℤ
  | Tensor12.two m =>
    if 1 < (m.headD []).length then m.map fun r => (argmaxIdx r : ℤ)
    else m.map fun r => ratTrunc (r.headD 0)
  | Tensor12.one v => v.map ratTrunc

/-- Default batch used only as the `getD` default in theorem statements
about batch lists (never reached at valid indices). -/
def dfltBatch : Batch := Batch.attributed [] none

/-- The loss samples that `_fit_GD` records over `total` global
iterations on the cyclic batch sequence `bs`: one sample exactly at
every iteration divisible by `iterSteps`. -/
def gdRecord (e : ESN) (bs : List Batch) (iterSteps total : ℕ) : List ℚ :=
  (List.range total).filterMap fun k =>
    if (k + 1) % iterSteps = 0 then
      some (e.lossOf (k + 1) (trainPairD e (bs.getD (k % bs.length) dfltBatch)).1
        (trainPairD e (bs.getD (k % bs.length) dfltBatch)).2)
    else none

/-- A concrete model in keyed (HuggingFace) mode with arithmetic-free
collaborators, used for concrete evaluations. -/
def demoESN : ESN :=
  { embCallable := true
    bidirectional := false
    strategyTag := some "mean"
    merge := fun states _ _ _ => states.map List.flatten
    forwardL := fun _ => ([[[1], [0]], [[0], [1]]], [2, 2])
    reverseForwardL := fun _ => ([[[0], [1]], [[1], [0]]], [2, 2])
    algoKind := AlgoKind.ridgeRegression
    algoForward := fun m => Tensor12.two m
    lossOf := fun _ _ _ => 0 }

/-- The model `demoESN` in attributed (TorchText) mode. -/
def attrESN : ESN := { demoESN with embCallable := false }

/-- The model `demoESN` with a readout class that is not one of the four
closed-form classes. -/
def gdESN : ESN := { demoESN with algoKind := AlgoKind.other "LogisticRegression" }

/-- The model `demoESN` with an arbitrary unrecognized readout class. -/
def rfESN : ESN := { demoESN with algoKind := AlgoKind.other "RandomForestClassifier" }

/-- A bidirectional no-pooling model whose reduction reports whether it
received extra features, used to observe the arguments the combination
step passes to the reduction. -/
def probeESN : ESN :=
  { demoESN with
    bidirectional := true
    strategyTag := none
    merge := fun _ _ _ afts => if afts.isSome then [[1]] else [[0]] }

/-- The model `probeESN` with pooling enabled. -/
def probePoolESN : ESN := { probeESN with strategyTag := some "mean" }

/-! ## Auxiliary lemmas -/

/-- A nonempty 1-D tensor's arg-max is a valid index. -/
theorem argmaxIdx_lt_length : ∀ (v : List ℚ), v ≠ [] → argmaxIdx v < v.length
  | [x], _ => by simp [argmaxIdx]
  | x :: y :: ys, _ => by
    have ih := argmaxIdx_lt_length (y :: ys) (by simp)
    by_cases hx : x < (y :: ys).getD (argmaxIdx (y :: ys)) 0
    · simp only [argmaxIdx, if_pos hx, List.length_cons]
      exact Nat.succ_lt_succ (by simpa using ih)
    · simp only [argmaxIdx, if_neg hx, List.length_cons]
      exact Nat.succ_pos _

/-- The entry at the arg-max index dominates every entry. -/
theorem getD_argmaxIdx_isMax :
    ∀ (v : List ℚ) (k : ℕ), k < v.length → v.getD k 0 ≤ v.getD (argmaxIdx v) 0
  | [x], k, hk => by
    have hk0 : k = 0 := by simp at hk; omega
    subst hk0
    simp [argmaxIdx]
  | x :: y :: ys, k, hk => by
    have ih := getD_argmaxIdx_isMax (y :: ys)
    by_cases hx : x < (y :: ys).getD (argmaxIdx (y :: ys)) 0
    · simp only [argmaxIdx, if_pos hx, List.getD_cons_succ]
      match k with
      | 0 => simpa using le_of_lt hx
      | k + 1 =>
        simp only [List.getD_cons_succ]
        exact ih k (by simpa using Nat.lt_of_succ_lt_succ hk)
    · simp only [argmaxIdx, if_neg hx, List.getD_cons_zero]
      match k with
      | 0 => simp
      | k + 1 =>
        simp only [List.getD_cons_succ]
        exact le_trans (ih k (by simpa using Nat.lt_of_succ_lt_succ hk)) (not_lt.mp hx)

/-- Lowest-index tie-break: the arg-max index is at most any index whose
entry dominates every entry. -/
theorem argmaxIdx_le_of_isMax :
    ∀ (v : List ℚ) (j : ℕ), j < v.length →
      (∀ k, k < v.length → v.getD k 0 ≤ v.getD j 0) → argmaxIdx v ≤ j
  | [x], j, _, _ => by simp [argmaxIdx]
  | x :: y :: ys, j, hj, hmax => by
    by_cases hx : x < (y :: ys).getD (argmaxIdx (y :: ys)) 0
    · simp only [argmaxIdx, if_pos hx]
      match j with
      | 0 =>
        exfalso
        have hlt := argmaxIdx_lt_length (y :: ys) (by simp)
        have := hmax (argmaxIdx (y :: ys) + 1) (by simpa using Nat.succ_lt_succ hlt)
        simp only [List.getD_cons_succ, List.getD_cons_zero] at this
        exact absurd hx (not_lt.mpr this)
      | j + 1 =>
        have hmax' : ∀ k, k < (y :: ys).length →
            (y :: ys).getD k 0 ≤ (y :: ys).getD j 0 := by
          intro k hk
          have := hmax (k + 1) (by simpa using Nat.succ_lt_succ hk)
          simpa using this
        exact Nat.succ_le_succ
          (argmaxIdx_le_of_isMax (y :: ys) j (by simpa using Nat.lt_of_succ_lt_succ hj) hmax')
    · simp only [argmaxIdx, if_neg hx]
      exact Nat.zero_le j

/-- The offsets list has one entry per sequence plus the leading zero. -/
theorem cumOffsets_length (ls : List ℕ) : (cumOffsets ls).length = ls.length + 1 := by
  simp [cumOffsets]

/-- Entry `i` of the offsets list is the sum of the first `i` lengths. -/
theorem cumOffsets_getD (ls : List ℕ) (i : ℕ) (hi : i < ls.length + 1) :
    (cumOffsets ls).getD i 0 = (ls.take i).sum := by
  rw [cumOffsets, List.getD_eq_getElem?_getD, List.getElem?_map,
    List.getElem?_range (by simpa using hi)]
  rfl

/-- Mapping a function of the `i`-th element over the index range is
mapping it over the list. -/
theorem map_getD_range {α β : Type} :
    ∀ (l : List α) (g : α → β) (d : α),
      (List.range l.length).map (fun i => g (l.getD i d)) = l.map g
  | [], _, _ => rfl
  | a :: l, g, d => by
    simp only [List.length_cons, List.range_succ_eq_map, List.map_cons, List.map_map]
    refine congrArg₂ _ (by simp) ?_
    have hcomp : (fun i => g ((a :: l).getD i d)) ∘ Nat.succ = fun i => g (l.getD i d) := by
      funext i
      simp [Function.comp, List.getD_cons_succ]
    rw [hcomp]
    exact map_getD_range l g d

/-- Slicing the row-concatenation of blocks between two consecutive
cumulative block lengths recovers the corresponding block. -/
theorem sliceRows_flatten :
    ∀ (blocks : List Mat) (i : ℕ), i < blocks.length →
      sliceRows blocks.flatten (((blocks.map List.length).take i).sum)
          (((blocks.map List.length).take (i + 1)).sum)
        = blocks.getD i []
  | b :: bs, 0, _ => by
    simp only [List.map_cons, List.take_zero, List.sum_nil, List.take_succ_cons,
      List.take_zero, List.sum_cons, List.sum_nil, List.flatten_cons,
      sliceRows, List.drop_zero, Nat.sub_zero, Nat.add_zero, List.getD_cons_zero]
    exact List.take_left b bs.flatten
  | b :: bs, i + 1, h => by
    have ih := sliceRows_flatten bs i (by simpa using Nat.lt_of_succ_lt_succ h)
    simp only [List.map_cons, List.take_succ_cons, List.sum_cons, List.flatten_cons,
      List.getD_cons_succ, sliceRows] at ih ⊢
    rw [show b.length + ((bs.map List.length).take (i + 1)).sum -
        (b.length + ((bs.map List.length).take i).sum)
        = ((bs.map List.length).take (i + 1)).sum - ((bs.map List.length).take i).sum
      from by omega]
    rw [List.drop_append]
    exact ih

/-- The strategy-`None` prediction pipeline evaluated on raw outputs that
are the row-concatenation of per-sequence blocks: the cumulative offsets
slice out exactly the blocks, so each sequence's prediction is the
arg-max of the row-wise mean of its own block. -/
theorem computePredictionsNone_flatten (blocks : List Mat) :
    computePredictionsNone blocks.flatten (blocks.map List.length)
      = blocks.map fun b => argmaxIdx (meanRows b) := by
  rw [computePredictionsNone, cumOffsets_length]
  have hlen : (blocks.map List.length).length = blocks.length := List.length_map _ _
  rw [show (blocks.map List.length).length + 1 - 1 = blocks.length from by rw [hlen]; omega]
  rw [List.map_congr_left (g := fun i => argmaxIdx (meanRows (blocks.getD i [])))]
  · exact map_getD_range blocks (fun b => argmaxIdx (meanRows b)) []
  · intro i hi
    have hi' : i < blocks.length := by simpa using List.mem_range.mp hi
    rw [cumOffsets_getD _ _ (by omega), cumOffsets_getD _ _ (by simp; omega),
      sliceRows_flatten blocks i hi']

/-! ## Claim theorems -/

/-- Claim C2 (amended): when `bidirectional` is true and the pooling
strategy is `None`, the combination step clones the reversed
StateTensor, reverses in place the order of exactly the first
`lengths[i]` rows of each sequence `i` (rows at indices `≥ lengths[i]`
unchanged), concatenates the forward and corrected-reversed StateTensors
along the feature axis, and calls the identity reduction *without* the
extra features over that concatenation (the source passes no
extra-features argument at esn.py line 160). -/
theorem claim_C2 :
    (∀ (e : ESN) (states : Tensor3) (lengths : List ℕ) (texts : Texts)
        (rev : Tensor3) (afts : Option Mat),
        e.bidirectional = true → e.strategyTag = none →
        applyPoolingStrategy e states lengths texts (some rev) afts
          = e.merge (catDim2 states (restoreStates lengths rev)) lengths texts none) ∧
    (∀ (lengths : List ℕ) (rev : Tensor3) (i l : ℕ) (rows : List (List ℚ)),
        lengths[i]? = some l → rev[i]? = some rows → l ≤ rows.length →
        ∃ rrows, (restoreStates lengths rev)[i]? = some rrows ∧
          (∀ j, j < l → rrows[j]? = rows[l - 1 - j]?) ∧
          (∀ j, l ≤ j → rrows[j]? = rows[j]?)) := by
  constructor
  · intro e states lengths texts rev afts hbid htag
    simp [applyPoolingStrategy, hbid, htag]
  · intro lengths rev i l rows hlen hrev hle
    refine ⟨(rows.take l).reverse ++ rows.drop l, ?_, ?_, ?_⟩
    · rw [restoreStates, List.getElem?_zipWith, hlen, hrev]
    · intro j hj
      have htl : (rows.take l).length = l := by
        simp [List.length_take, Nat.min_eq_left hle]
      rw [List.getElem?_append]
      rw [if_pos (by simp [htl, hj])]
      rw [List.getElem?_reverse (by simp [htl, hj]), htl, List.getElem?_take,
        if_pos (by omega)]
    · intro j hj
      have htl : (rows.take l).length = l := by
        simp [List.length_take, Nat.min_eq_left hle]
      rw [List.getElem?_append]
      rw [if_neg (by simp [htl]; omega)]
      rw [List.length_reverse, htl, List.getElem?_drop,
        show l + (j - l) = j from by omega]

/-- Claim C2 counterexample: at a concrete input carrying extra
features, the source combination (which passes no extra-features
argument to the reduction) differs from the claim's "call the identity
reduction with the extra features" version. -/
theorem claim_C2_counterexample :
    applyPoolingStrategy probeESN [[[1]]] [1] [[0]] (some [[[2]]]) (some [[5]]) = [[0]] ∧
    applyPoolingSpecBidirNone probeESN [[[1]]] [1] [[0]] [[[2]]] (some [[5]]) = [[1]] ∧
    applyPoolingStrategy probeESN [[[1]]] [1] [[0]] (some [[[2]]]) (some [[5]])
      ≠ applyPoolingSpecBidirNone probeESN [[[1]]] [1] [[0]] [[[2]]] (some [[5]]) := by
  refine ⟨rfl, rfl, ?_⟩
  intro h
  have h0 : ([[(0 : ℚ)]] : Mat) = [[1]] := h
  norm_num at h0

/-- Claim C2 witness: the amended statement applied at a concrete
bidirectional no-pooling model and at a concrete two-row sequence of
true length 2. -/
theorem claim_C2_witness :
    (applyPoolingStrategy probeESN [[[1]]] [2] [[0]] (some [[[4], [5], [6]]]) (some [[9]])
      = probeESN.merge (catDim2 [[[1]]] (restoreStates [2] [[[4], [5], [6]]])) [2] [[0]] none) ∧
    (∃ rrows, (restoreStates [2] [[[4], [5], [6]]])[0]? = some rrows ∧
      (∀ j, j < 2 → rrows[j]? = [[(4 : ℚ)], [5], [6]][2 - 1 - j]?) ∧
      (∀ j, 2 ≤ j → rrows[j]? = [[(4 : ℚ)], [5], [6]][j]?)) := by
  constructor
  · exact claim_C2.1 probeESN [[[1]]] [2] [[0]] [[[4], [5], [6]]] (some [[9]]) rfl rfl
  · exact claim_C2.2 [2] [[[4], [5], [6]]] 0 2 [[4], [5], [6]] rfl rfl (by norm_num)

/-- Claim C5: when the pooling strategy is `None`, prediction computes
cumulative offsets `(0, len₀, len₀+len₁, …)` from the per-sequence
lengths, averages each sequence's span of per-token raw output rows
row-wise into one score vector, and returns the index of the maximum
entry, with ties resolved to the lowest index. -/
theorem claim_C5 :
    (∀ blocks : List Mat,
        computePredictionsNone blocks.flatten (blocks.map List.length)
          = blocks.map fun b => argmaxIdx (meanRows b)) ∧
    (∀ (v : List ℚ) (j : ℕ), j < v.length →
        (∀ k, k < v.length → v.getD k 0 ≤ v.getD j 0) →
        argmaxIdx v ≤ j ∧ v.getD (argmaxIdx v) 0 = v.getD j 0) := by
  refine ⟨computePredictionsNone_flatten, ?_⟩
  intro v j hj hmax
  have hne : v ≠ [] := by
    intro h
    subst h
    simp at hj
  refine ⟨argmaxIdx_le_of_isMax v j hj hmax, ?_⟩
  exact le_antisymm (hmax (argmaxIdx v) (argmaxIdx_lt_length v hne))
    (getD_argmaxIdx_isMax v j hj)

/-- Claim C5 witness: two sequences of lengths `[2, 1]` whose raw output
rows are sliced and averaged per sequence, and the spec's tie-break
example `[0.5, 0.5, 0.2]` whose arg-max is the lowest index `0`. -/
theorem claim_C5_witness :
    computePredictionsNone [[1, 2], [3, 0], [9, 1]] [2, 1] = [0, 0] ∧
    argmaxIdx [0.5, 0.5, 0.2] ≤ 0 := by
  constructor
  · have h := claim_C5.1 [[[1, 2], [3, 0]], [[9, 1]]]
    rw [show ([[1, 2], [3, 0], [9, 1]] : Mat)
        = ([[[1, 2], [3, 0]], [[9, 1]]] : List Mat).flatten from rfl,
      show ([2, 1] : List ℕ)
        = ([[[1, 2], [3, 0]], [[9, 1]]] : List Mat).map List.length from rfl, h]
    norm_num [meanRows, sumRows, addRow, argmaxIdx]
  · refine (claim_C5.2 [0.5, 0.5, 0.2] 0 (by norm_num) ?_).1
    intro k hk
    simp only [List.length_cons, List.length_nil] at hk
    interval_cases k <;> norm_num [List.getD]

/-- Claim C6 (amended): with pooling enabled, the prediction branch is
on the *rank* of the raw readout outputs, not on their column count: any
2-D output (even a single-column one) gets a per-row arg-max (ties to
the lowest index), and a 1-D output is cast directly to integer labels. -/
theorem claim_C6 :
    (∀ m : Mat, computePredictionsPooled (Tensor12.two m)
        = m.map fun r => (argmaxIdx r : ℤ)) ∧
    (∀ v : List ℚ, computePredictionsPooled (Tensor12.one v) = v.map ratTrunc) ∧
    (∀ (r : List ℚ) (j : ℕ), j < r.length →
        (∀ k, k < r.length → r.getD k 0 ≤ r.getD j 0) → argmaxIdx r ≤ j) := by
  refine ⟨fun _ => rfl, fun _ => rfl, ?_⟩
  intro r j hj hmax
  exact argmaxIdx_le_of_isMax r j hj hmax

/-- Claim C6 counterexample: single-column rank-2 raw outputs
`[[3], [2]]` do not have "more than one column", so the claim casts them
directly to labels `[3, 2]`; the code arg-maxes each row (because the
rank is not 1) and yields `[0, 0]`. -/
theorem claim_C6_counterexample :
    computePredictionsPooled (Tensor12.two [[3], [2]]) = [0, 0] ∧
    computePredictionsPooledSpec (Tensor12.two [[3], [2]]) = [3, 2] ∧
    computePredictionsPooled (Tensor12.two [[3], [2]])
      ≠ computePredictionsPooledSpec (Tensor12.two [[3], [2]]) := by
  refine ⟨rfl, ?_, ?_⟩
  · norm_num [computePredictionsPooledSpec, ratTrunc]
  · intro h
    rw [show computePredictionsPooled (Tensor12.two [[3], [2]]) = [0, 0] from rfl] at h
    rw [show computePredictionsPooledSpec (Tensor12.two [[3], [2]]) = [3, 2] from by
      norm_num [computePredictionsPooledSpec, ratTrunc]] at h
    simp at h

/-- Claim C6 witness: the amended statement evaluated on a concrete
two-column output matrix and the tie-break bound applied at a concrete
row with equal maxima. -/
theorem claim_C6_witness :
    computePredictionsPooled (Tensor12.two [[0.5, 0.5], [0.1, 0.9]]) = [0, 1] ∧
    argmaxIdx [7, 7] ≤ 0 := by
  constructor
  · rw [claim_C6.1]
    norm_num [argmaxIdx]
  · refine claim_C6.2.2 [7, 7] 0 (by norm_num) ?_
    intro k hk
    simp only [List.length_cons, List.length_nil] at hk
    interval_cases k <;> norm_num [List.getD]

/-- Claim C9: when `bidirectional` is true and the pooling strategy is
not `None`, the reduction is applied to the forward StateTensor with the
extra features and independently to the reversed StateTensor without
extra features, and the two pooled results are concatenated along the
feature axis, forward features first. -/
theorem claim_C9 :
    (∀ (e : ESN) (states : Tensor3) (lengths : List ℕ) (texts : Texts)
        (rev : Tensor3) (afts : Option Mat) (tag : String),
        e.bidirectional = true → e.strategyTag = some tag →
        applyPoolingStrategy e states lengths texts (some rev) afts
          = catDim1 (e.merge states lengths texts afts) (e.merge rev lengths texts none)) ∧
    (∀ (a b : Mat) (i : ℕ) (ra rb : List ℚ), a[i]? = some ra → b[i]? = some rb →
        (catDim1 a b)[i]? = some (ra ++ rb)) := by
  constructor
  · intro e states lengths texts rev afts tag hbid htag
    simp [applyPoolingStrategy, hbid, htag]
  · intro a b i ra rb ha hb
    rw [catDim1, List.getElem?_zipWith, ha, hb]

/-- Claim C9 witness: the statement applied at a concrete bidirectional
pooling-enabled model (whose reduction reports whether it received extra
features) and at concrete one-row pooled matrices. -/
theorem claim_C9_witness :
    applyPoolingStrategy probePoolESN [[[1]]] [1] [[0]] (some [[[2]]]) (some [[5]])
      = catDim1 (probePoolESN.merge [[[1]]] [1] [[0]] (some [[5]]))
          (probePoolESN.merge [[[2]]] [1] [[0]] none) ∧
    (catDim1 [[1, 2]] [[3]])[0]? = some [(1 : ℚ), 2, 3] := by
  constructor
  · exact claim_C9.1 probePoolESN [[[1]]] [1] [[0]] [[[2]]] (some [[5]]) "mean" rfl rfl
  · exact claim_C9.2 [[1, 2]] [[3]] 0 [1, 2] [3] rfl rfl

/-- Claim C10: in bidirectional mode the lengths returned by the reverse
pass are discarded in training and prediction alike: replacing them by
arbitrary values changes nothing in per-batch processing, closed-form
training, gradient-descent training or prediction, because the forward
pass's lengths are the ones used both to un-reverse the reversed states
and to pool the reversed stream. -/
theorem claim_C10 (e : ESN) (f : Texts → List ℕ) :
    (∀ b, processBatch { e with reverseForwardL := fun t => ((e.reverseForwardL t).1, f t) } b
        = processBatch e b) ∧
    (∀ bs, fitDirect { e with reverseForwardL := fun t => ((e.reverseForwardL t).1, f t) } bs
        = fitDirect e bs) ∧
    (∀ bs ep s, fitGD { e with reverseForwardL := fun t => ((e.reverseForwardL t).1, f t) } bs ep s
        = fitGD e bs ep s) ∧
    (∀ bs, predictE { e with reverseForwardL := fun t => ((e.reverseForwardL t).1, f t) } bs
        = predictE e bs) :=
  ⟨fun _ => rfl, fun _ => rfl, fun _ _ _ => rfl, fun _ => rfl⟩

/-- Claim C1 (amended): every readout instance whose declared type is
not one of the four recognized closed-form classes is routed to the
iterative gradient-descent path; the dispatcher has no failure outcome
(there is no `UnsupportedAlgorithm` error in the source). -/
theorem claim_C1 (e : ESN) (bs : List Batch) (ep s : ℕ)
    (h : isClosedForm e.algoKind = false) :
    fitE e bs ep s = (fitGD e bs ep s).map (fun l => some l) ∧
    dispatchSource e.algoKind = DispatchOutcome.iterativePath := by
  constructor
  · rw [fitE, if_neg (by simp [h])]
  · rw [dispatchSource, if_neg (by simp [h])]

/-- Claim C1 counterexample: for a readout class recognized by neither
the closed-form `isinstance` chain nor any iterative tag set (the source
recognizes no iterative tags at all), the spec-modelled dispatcher fails
with `UnsupportedAlgorithm`, but the source dispatches to the iterative
path and `fit` silently trains (here: returns an empty loss history)
instead of failing. -/
theorem claim_C1_counterexample :
    dispatchSource (AlgoKind.other "RandomForestClassifier")
      = DispatchOutcome.iterativePath ∧
    dispatchSpec isClosedForm (fun _ => false) (AlgoKind.other "RandomForestClassifier")
      = DispatchOutcome.failUnsupported ∧
    dispatchSource (AlgoKind.other "RandomForestClassifier")
      ≠ dispatchSpec isClosedForm (fun _ => false) (AlgoKind.other "RandomForestClassifier") ∧
    fitE rfESN [] 1 100 = Except.ok (some []) := by
  refine ⟨rfl, rfl, by decide, rfl⟩

/-- Claim C1 witness: the amended statement applied to a concrete model
whose readout class is not closed-form. -/
theorem claim_C1_witness :
    fitE gdESN [] 1 100 = (fitGD gdESN [] 1 100).map (fun l => some l) ∧
    dispatchSource gdESN.algoKind = DispatchOutcome.iterativePath :=
  claim_C1 gdESN [] 1 100 rfl

/-- Claim C3 (code evaluation): `predict` on a keyed batch with no
"labels" entry raises `KeyError` at the batch-normalization line
(esn.py line 423), which is *outside* the `try` block of lines 448-455:
the batch is not treated as inference-only, no predictions are returned,
and the absent-accuracy result is never reached. -/
theorem claim_C3_eval :
    predictE demoESN [Batch.keyed [[1, 2]] none none]
      = Except.error (PyErr.keyError "labels") := rfl

/-- Claim C4 (code evaluation): in the attributed (TorchText) wire shape
the local `additional_fts` is never assigned, so its use raises
`UnboundLocalError` in closed-form training, gradient-descent training
and prediction alike; in the keyed (HuggingFace) shape a missing
"additional features" entry degrades gracefully and all three paths
succeed. -/
theorem claim_C4_eval :
    fitDirect attrESN [Batch.attributed [[1, 2]] (some [1])]
      = Except.error (PyErr.unboundLocal "additional_fts") ∧
    fitGD attrESN [Batch.attributed [[1, 2]] (some [1])] 1 100
      = Except.error (PyErr.unboundLocal "additional_fts") ∧
    predictE attrESN [Batch.attributed [[1, 2]] (some [1])]
      = Except.error (PyErr.unboundLocal "additional_fts") ∧
    (fitDirect demoESN [Batch.keyed [[1, 2]] (some [1]) none]).isOk = true ∧
    (fitGD demoESN [Batch.keyed [[1, 2]] (some [1]) none] 1 100).isOk = true ∧
    (predictE demoESN [Batch.keyed [[1, 2]] (some [1]) none]).isOk = true := by
  refine ⟨rfl, rfl, rfl, rfl, rfl, ?_⟩
  decide

/-! ## Fold characterizations of the two trainers -/

/-- A fallible computation that reports success holds a success value. -/
theorem exists_ok {ε α : Type} (x : Except ε α) (h : x.isOk = true) :
    ∃ a, x = Except.ok a := by
  cases x with
  | ok a => exact ⟨a, rfl⟩
  | error er => simp [Except.isOk, Except.toBool] at h

/-- Filtering-by-condition form of a conditional `filterMap`. -/
theorem filterMap_ite {α : Type} (g : ℕ → α) (c : ℕ → Prop) [DecidablePred c] :
    ∀ l : List ℕ,
      l.filterMap (fun k => if c k then some (g k) else none)
        = (l.filter fun k => decide (c k)).map g
  | [] => rfl
  | a :: l => by
    by_cases h : c a
    · simp [h, filterMap_ite g c l]
    · simp [h, filterMap_ite g c l]

/-- The accumulator fold of `_fit_direct` over successfully processed
batches appends, in batch order, each batch's pooled states and labels
to the accumulator pair. -/
theorem fitDirect_fold (e : ESN) :
    ∀ (bs : List Batch) (acc : List Mat × List (List ℤ)),
      (∀ b ∈ bs, (trainPair e b).isOk = true) →
      bs.foldlM (fitDirectStep e) acc
        = Except.ok (acc.1 ++ bs.map (fun b => (trainPairD e b).1),
            acc.2 ++ bs.map (fun b => (trainPairD e b).2))
  | [], acc, _ => by
    simp only [List.foldlM_nil, List.map_nil, List.append_nil]
    rfl
  | b :: bs, acc, h => by
    obtain ⟨p, hp⟩ := exists_ok (trainPair e b) (h b (by simp))
    have hD : trainPairD e b = p := by simp [trainPairD, hp]
    have hstep : fitDirectStep e acc b = Except.ok (acc.1 ++ [p.1], acc.2 ++ [p.2]) := by
      simp only [fitDirectStep, hp]
      rfl
    rw [List.foldlM_cons, hstep]
    show bs.foldlM (fitDirectStep e) (acc.1 ++ [p.1], acc.2 ++ [p.2]) = _
    rw [fitDirect_fold e bs _ (fun b' hb' => h b' (by simp [hb']))]
    simp [hD]

/-- The inner batch loop of `_fit_GD`: starting from global counter
`st.1`, processing the whole batch list advances the counter by the
number of batches and appends exactly the loss samples of the iterations
divisible by `iterSteps`. -/
theorem fitGD_fold_batches (e : ESN) (s : ℕ) :
    ∀ (bs : List Batch) (st : ℕ × List ℚ),
      (∀ b ∈ bs, (trainPair e b).isOk = true) →
      bs.foldlM (fitGDStep e s) st
        = Except.ok (st.1 + bs.length,
            st.2 ++ ((List.range bs.length).filterMap fun k =>
              if (st.1 + k + 1) % s = 0 then
                some (e.lossOf (st.1 + k + 1)
                  (trainPairD e (bs.getD k dfltBatch)).1
                  (trainPairD e (bs.getD k dfltBatch)).2)
              else none))
  | [], st, _ => by
    simp only [List.foldlM_nil, List.length_nil, List.range_zero, List.filterMap_nil,
      List.append_nil, Nat.add_zero]
    rfl
  | b :: bs, st, h => by
    obtain ⟨p, hp⟩ := exists_ok (trainPair e b) (h b (by simp))
    have hD : trainPairD e b = p := by simp [trainPairD, hp]
    have hstep : fitGDStep e s st b
        = Except.ok (st.1 + 1,
            if (st.1 + 1) % s = 0 then st.2 ++ [e.lossOf (st.1 + 1) p.1 p.2]
            else st.2) := by
      simp only [fitGDStep, hp]
      rfl
    rw [List.foldlM_cons, hstep]
    show bs.foldlM (fitGDStep e s) _ = _
    rw [fitGD_fold_batches e s bs _ (fun b' hb' => h b' (by simp [hb']))]
    refine congrArg Except.ok (Prod.ext ?_ ?_)
    · simp only [List.length_cons]
      omega
    · simp only [List.length_cons, List.range_succ_eq_map, List.filterMap_cons,
        List.filterMap_map]
      rw [show st.1 + 0 + 1 = st.1 + 1 from by omega]
      have hcomp : ((fun k => if (st.1 + k + 1) % s = 0 then
            some (e.lossOf (st.1 + k + 1)
              (trainPairD e ((b :: bs).getD k dfltBatch)).1
              (trainPairD e ((b :: bs).getD k dfltBatch)).2)
            else none) ∘ Nat.succ)
          = fun k => if (st.1 + 1 + k + 1) % s = 0 then
              some (e.lossOf (st.1 + 1 + k + 1)
                (trainPairD e (bs.getD k dfltBatch)).1
                (trainPairD e (bs.getD k dfltBatch)).2)
            else none := by
        funext k
        simp only [Function.comp, Nat.succ_eq_add_one, List.getD_cons_succ]
        rw [show st.1 + (k + 1) + 1 = st.1 + 1 + k + 1 from by omega]
      rw [hcomp]
      simp only [List.getD_cons_zero, hD]
      by_cases h1 : (st.1 + 1) % s = 0
      · simp [h1, List.append_assoc]
      · simp [h1]

/-- The epoch loop of `_fit_GD`: running `ep` epochs over the batch list
advances the global counter by `ep * bs.length` and appends exactly the
loss samples of the globally counted iterations divisible by
`iterSteps`, the batch of iteration `n` being batch `(n - 1) % bs.length`
of the list. -/
theorem fitGD_fold_epochs (e : ESN) (s : ℕ) (bs : List Batch)
    (h : ∀ b ∈ bs, (trainPair e b).isOk = true) :
    ∀ (ep : ℕ) (st : ℕ × List ℚ),
      (List.range ep).foldlM (fun st2 (_ : ℕ) => bs.foldlM (fitGDStep e s) st2) st
        = Except.ok (st.1 + ep * bs.length,
            st.2 ++ ((List.range (ep * bs.length)).filterMap fun k =>
              if (st.1 + k + 1) % s = 0 then
                some (e.lossOf (st.1 + k + 1)
                  (trainPairD e (bs.getD (k % bs.length) dfltBatch)).1
                  (trainPairD e (bs.getD (k % bs.length) dfltBatch)).2)
              else none))
  | 0, st => by
    simp only [List.range_zero, List.foldlM_nil, Nat.zero_mul, List.filterMap_nil,
      List.append_nil, Nat.add_zero]
    rfl
  | ep + 1, st => by
    rw [List.range_succ_eq_map, List.foldlM_cons, fitGD_fold_batches e s bs st h]
    show (List.map Nat.succ (List.range ep)).foldlM
      (fun st2 (_ : ℕ) => bs.foldlM (fitGDStep e s) st2) _ = _
    rw [List.foldlM_map]
    rw [fitGD_fold_epochs e s bs h ep _]
    refine congrArg Except.ok (Prod.ext ?_ ?_)
    · show st.1 + bs.length + ep * bs.length = st.1 + (ep + 1) * bs.length
      ring
    · show st.2 ++ _ ++ _ = st.2 ++ _
      rw [show (ep + 1) * bs.length = bs.length + ep * bs.length from by ring,
        List.range_add, List.filterMap_append, List.filterMap_map]
      rw [List.append_assoc]
      refine congrArg₂ _ rfl (congrArg₂ _ ?_ ?_)
      · refine List.filterMap_congr ?_
        intro k hk
        rw [Nat.mod_eq_of_lt (List.mem_range.mp hk)]
      · refine List.filterMap_congr ?_
        intro k _
        simp only [Function.comp]
        rw [show st.1 + (bs.length + k) + 1 = st.1 + bs.length + k + 1 from by omega,
          Nat.add_mod_left]

/-- Claim C8: in closed-form training, once every batch processes
successfully, the readout algorithm's fit is invoked exactly once (the
returned pair models the arguments of that single call, issued after the
batch loop), on the row-axis concatenation of all per-batch merged
states as design matrix and of all per-batch label vectors as targets. -/
theorem claim_C8 (e : ESN) (bs : List Batch)
    (h : ∀ b ∈ bs, (trainPair e b).isOk = true) :
    fitDirect e bs
      = Except.ok ((bs.map fun b => (trainPairD e b).1).flatten,
          (bs.map fun b => (trainPairD e b).2).flatten) := by
  show (bs.foldlM (fitDirectStep e) ([], [])).bind _ = _
  rw [fitDirect_fold e bs ([], []) h]
  rfl

/-- Claim C8 witness: the statement applied to a concrete model and two
concrete keyed batches, with the single fit-call arguments evaluated. -/
theorem claim_C8_witness :
    fitDirect demoESN
        [Batch.keyed [[1]] (some [0]) none, Batch.keyed [[2]] (some [1]) none]
      = Except.ok ([[1, 0], [0, 1], [1, 0], [0, 1]], [0, 1]) := by
  rw [claim_C8 demoESN
    [Batch.keyed [[1]] (some [0]) none, Batch.keyed [[2]] (some [1]) none]
    (by
      intro b hb
      simp only [List.mem_cons, List.not_mem_nil, or_false] at hb
      rcases hb with rfl | rfl <;> decide)]
  rfl

/-- Once the readout kind is not closed-form and every batch processes
successfully, `fit` returns the loss history recording one sample at
every global iteration divisible by `iterSteps`. -/
theorem fitE_GD_record (e : ESN) (bs : List Batch) (ep s : ℕ)
    (hcf : isClosedForm e.algoKind = false)
    (hok : ∀ b ∈ bs, (trainPair e b).isOk = true) :
    fitE e bs ep s = Except.ok (some (gdRecord e bs s (ep * bs.length))) := by
  rw [fitE, if_neg (by simp [hcf])]
  show Except.map _ ((((List.range ep).foldlM
    (fun st2 (_ : ℕ) => bs.foldlM (fitGDStep e s) st2) ((0 : ℕ), ([] : List ℚ)))).bind _) = _
  rw [fitGD_fold_epochs e s bs hok ep ((0 : ℕ), ([] : List ℚ))]
  simp only [Except.bind, Except.map, List.nil_append]
  refine congrArg (fun l => Except.ok (some l)) ?_
  rw [gdRecord]
  refine List.filterMap_congr ?_
  intro k _
  rw [show (0 : ℕ) + k + 1 = k + 1 from by omega]

/-- Claim C7: `fit` returns `None` when the closed-form path is taken
and the ordered loss history when the iterative path is taken; on the
iterative path one loss sample is appended exactly at every global
iteration divisible by `iterSteps` (counted across epochs and batches),
so a run of exactly 250 iterations with `iterSteps = 100` returns a
history of exactly two entries, recorded at iterations 100 and 200. -/
theorem claim_C7 :
    (∀ (e : ESN) (bs : List Batch) (ep s : ℕ) (r : Mat × List ℤ),
        isClosedForm e.algoKind = true → fitDirect e bs = Except.ok r →
        fitE e bs ep s = Except.ok none) ∧
    (∀ (e : ESN) (bs : List Batch) (ep s : ℕ),
        isClosedForm e.algoKind = false →
        (∀ b ∈ bs, (trainPair e b).isOk = true) →
        fitE e bs ep s = Except.ok (some (gdRecord e bs s (ep * bs.length)))) ∧
    (∀ (e : ESN) (bs : List Batch),
        isClosedForm e.algoKind = false →
        (∀ b ∈ bs, (trainPair e b).isOk = true) →
        bs.length = 250 →
        fitE e bs 1 100
          = Except.ok (some
              [e.lossOf 100 (trainPairD e (bs.getD 99 dfltBatch)).1
                  (trainPairD e (bs.getD 99 dfltBatch)).2,
               e.lossOf 200 (trainPairD e (bs.getD 199 dfltBatch)).1
                  (trainPairD e (bs.getD 199 dfltBatch)).2])) := by
  refine ⟨?_, fitE_GD_record, ?_⟩
  · intro e bs ep s r hcf hdir
    rw [fitE, if_pos (by simp [hcf]), hdir]
    rfl
  · intro e bs hcf hok hlen
    rw [fitE_GD_record e bs 1 100 hcf hok, gdRecord, hlen, Nat.one_mul]
    rw [filterMap_ite
      (fun k => e.lossOf (k + 1) (trainPairD e (bs.getD (k % 250) dfltBatch)).1
        (trainPairD e (bs.getD (k % 250) dfltBatch)).2)
      (fun k => (k + 1) % 100 = 0) (List.range 250)]
    rw [show (List.range 250).filter (fun k => decide ((k + 1) % 100 = 0)) = [99, 199]
      from by decide]
    rfl

/-- Claim C7 witness: the closed-form conjunct applied to a concrete
ridge-regression model (returning `none`), and the 250-iteration
scenario applied to a concrete iterative model over 250 replicated
batches (two recorded samples of the constant-zero loss). -/
theorem claim_C7_witness :
    fitE demoESN [Batch.keyed [[1]] (some [0]) none] 1 100 = Except.ok none ∧
    fitE gdESN (List.replicate 250 (Batch.keyed [[1]] (some [0]) none)) 1 100
      = Except.ok (some [0, 0]) := by
  constructor
  · exact claim_C7.1 demoESN [Batch.keyed [[1]] (some [0]) none] 1 100
      ([[1, 0], [0, 1]], [0]) rfl rfl
  · rw [claim_C7.2.2 gdESN (List.replicate 250 (Batch.keyed [[1]] (some [0]) none))
      rfl
      (by
        intro b hb
        rw [List.eq_of_mem_replicate hb]
        decide)
      (List.length_replicate 250 (Batch.keyed [[1]] (some [0]) none))]
    rfl

/-- Claim C10 witness: the invariance applied to the concrete model
`demoESN` with the reverse-pass lengths replaced by the empty list. -/
theorem claim_C10_witness :
    predictE
        { demoESN with
          reverseForwardL := fun t =>
            ((demoESN.reverseForwardL t).1, (fun (_ : Texts) => ([] : List ℕ)) t) }
        [Batch.keyed [[1]] (some [0]) none]
      = predictE demoESN [Batch.keyed [[1]] (some [0]) none] :=
  (claim_C10 demoESN (fun _ => [])).2.2.2 [Batch.keyed [[1]] (some [0]) none]

end EsnCore
